import Mathlib

/-!
Shallow embedding of the Submitter Supervisor
(`src/submitter/submitter.service.ts` of the generalised-relayer repository)
and proofs about its configuration-resolution and worker-lifecycle logic.

JavaScript `Record<string, T>` objects and `Map<K, V>` values are embedded as
insertion-ordered association lists `List (String × T)`: assigning to an
existing key overwrites its value in place (keeping its position), assigning
a fresh key appends it at the end, exactly as JS string-keyed objects and
`Map.set` behave.  JS `??` on optional fields is `Option.getD`.  Code that
can throw (property access on an absent object, an adapter's
`getIncentivesAddress` lookup) is embedded in `Except String`.
-/

set_option autoImplicit false

universe u

/-- JS membership test `key in obj` on a string-keyed record. -/
def hasKey {α : Type u} : List (String × α) → String → Bool
  | [], _ => false
  | p :: rest, k => p.1 == k || hasKey rest k

/-- JS property read `obj[key]`: the value at the first matching key. -/
def getKey? {α : Type u} : List (String × α) → String → Option α
  | [], _ => none
  | p :: rest, k => if p.1 == k then some p.2 else getKey? rest k

/-- Overwrite every entry whose key matches, keeping positions. -/
def overwriteKey {α : Type u} : List (String × α) → String → α → List (String × α)
  | [], _, _ => []
  | p :: rest, k, v => (if p.1 == k then (k, v) else p) :: overwriteKey rest k v

/-- JS property write `obj[key] = v` / `Map.set(key, v)`: overwrite in place
when the key exists, append at the end otherwise. -/
def setKey {α : Type u} (m : List (String × α)) (k : String) (v : α) :
    List (String × α) :=
  if hasKey m k then overwriteKey m k v else m ++ [(k, v)]

/-- The keys of a record, in storage order. -/
def recKeys {α : Type u} (m : List (String × α)) : List String :=
  m.map Prod.fst

/-- The value the last assignment to `k` wrote, if any (JS: later writes win). -/
def lookupLast {α : Type u} : List (String × α) → String → Option α
  | [], _ => none
  | p :: rest, k =>
    match lookupLast rest k with
    | some v => some v
    | none => if p.1 == k then some p.2 else none

/-- Replay a list of entries onto an accumulator record with JS assignment
semantics; this is the body of a JS `for (const key in src) dst[key] = src[key]`
loop. -/
def applyEntries {α : Type u} (acc : List (String × α)) (entries : List (String × α)) :
    List (String × α) :=
  entries.foldl (fun a p => setKey a p.1 p.2) acc

/-! ## Data model (from `submitter.service.ts` and the configuration shapes) -/

/-- `Record<string, number>`: a gas-limit-buffer map. -/
abbrev GasRecord := List (String × Nat)

def RETRY_INTERVAL_DEFAULT : Nat := 2000
def PROCESSING_INTERVAL_DEFAULT : Nat := 100
def MAX_TRIES_DEFAULT : Nat := 3
def MAX_PENDING_TRANSACTIONS : Nat := 1000
def NEW_ORDERS_DELAY_DEFAULT : Nat := 0
def TRANSACTION_TIMEOUT_DEFAULT : Nat := 10 * 60000

/-- The raw `submitter` sub-tree of the relayer-wide configuration, every
field optional (absent fields are `none`). -/
structure RawSubmitterConfig where
  enabled : Option Bool := none
  newOrdersDelay : Option Nat := none
  retryInterval : Option Nat := none
  processingInterval : Option Nat := none
  maxTries : Option Nat := none
  maxPendingTransactions : Option Nat := none
  transactionTimeout : Option Nat := none
  gasLimitBuffer : Option GasRecord := none
deriving DecidableEq

/-- `GlobalSubmitterConfig` of `submitter.service.ts`. -/
structure GlobalSubmitterConfig where
  enabled : Bool
  newOrdersDelay : Nat
  retryInterval : Nat
  processingInterval : Nat
  maxTries : Nat
  maxPendingTransactions : Nat
  transactionTimeout : Nat
  gasLimitBuffer : GasRecord
deriving DecidableEq

/-- The per-chain `submitter` override sub-section: the six scalar overrides,
the chain-level `gasLimitBuffer`, and the five chain-only gas-strategy knobs
(all optional). -/
structure ChainSubmitterConfig where
  newOrdersDelay : Option Nat := none
  retryInterval : Option Nat := none
  processingInterval : Option Nat := none
  maxTries : Option Nat := none
  maxPendingTransactions : Option Nat := none
  transactionTimeout : Option Nat := none
  gasLimitBuffer : Option GasRecord := none
  maxFeePerGas : Option Nat := none
  maxPriorityFeeAdjustmentFactor : Option Nat := none
  maxAllowedPriorityFeePerGas : Option Nat := none
  gasPriceAdjustmentFactor : Option Nat := none
  maxAllowedGasPrice : Option Nat := none
deriving DecidableEq

/-- Modelled from the spec: `ChainConfig` is declared in
`src/config/config.service.ts`, which is not part of the sources; the spec
says each chain entry supplies a chain identifier, an RPC URL and a
`submitter` override sub-section whose fields are all optional.  The
unguarded `chainConfig.submitter.<field>` accesses in `loadWorkerConfig`
require the `submitter` object itself to be present. -/
structure ChainConfig where
  chainId : String
  rpc : String
  submitter : ChainSubmitterConfig
deriving DecidableEq

/-- Modelled from the spec: an adapter descriptor of the ordered `ambsConfig`
collection (declared in `src/config/config.service.ts`, not part of the
sources): a `name` and a `getIncentivesAddress(chainId)` lookup which may
throw (spec: "any failure in the address source ... propagates as a
construction-time error"). -/
structure AmbConfig where
  name : String
  getIncentivesAddress : String → Except String String

/-- `SubmitterWorkerData` of `submitter.service.ts`.  `loggerOptions` is kept
abstract as a string payload. -/
structure SubmitterWorkerData where
  chainId : String
  rpc : String
  relayerPrivateKey : String
  incentivesAddresses : List (String × String)
  newOrdersDelay : Nat
  retryInterval : Nat
  processingInterval : Nat
  maxTries : Nat
  maxPendingTransactions : Nat
  transactionTimeout : Nat
  gasLimitBuffer : GasRecord
  maxFeePerGas : Option Nat
  maxPriorityFeeAdjustmentFactor : Option Nat
  maxAllowedPriorityFeePerGas : Option Nat
  gasPriceAdjustmentFactor : Option Nat
  maxAllowedGasPrice : Option Nat
  loggerOptions : String
deriving DecidableEq

/-! ## The Config Resolver (`loadGlobalSubmitterConfig`, `loadWorkerConfig`,
`getChainGasLimitBufferConfig`) -/

/-- Body of `loadGlobalSubmitterConfig` once `relayerConfig.submitter` is
known to be present: every scalar defaults via `??`, and `gasLimitBuffer`
(`?? {}`) gets a `default` key set to `0` when it lacks one. -/
def loadGlobalSubmitterBody (submitterConfig : RawSubmitterConfig) :
    GlobalSubmitterConfig :=
  let enabled := submitterConfig.enabled.getD true
  let newOrdersDelay := submitterConfig.newOrdersDelay.getD NEW_ORDERS_DELAY_DEFAULT
  let retryInterval := submitterConfig.retryInterval.getD RETRY_INTERVAL_DEFAULT
  let processingInterval :=
    submitterConfig.processingInterval.getD PROCESSING_INTERVAL_DEFAULT
  let maxTries := submitterConfig.maxTries.getD MAX_TRIES_DEFAULT
  let maxPendingTransactions :=
    submitterConfig.maxPendingTransactions.getD MAX_PENDING_TRANSACTIONS
  let transactionTimeout :=
    submitterConfig.transactionTimeout.getD TRANSACTION_TIMEOUT_DEFAULT
  let gasLimitBuffer := submitterConfig.gasLimitBuffer.getD []
  let gasLimitBuffer :=
    if hasKey gasLimitBuffer "default" then gasLimitBuffer
    else setKey gasLimitBuffer "default" 0
  { enabled, newOrdersDelay, retryInterval, processingInterval, maxTries,
    maxPendingTransactions, transactionTimeout, gasLimitBuffer }

/-- `loadGlobalSubmitterConfig`: reads `relayerConfig.submitter` and resolves
it.  The section itself may be absent (spec: "may be partially or fully
absent"); in that case the very first property access
(`submitterConfig['enabled']`) throws a `TypeError` at run time, embedded
here as an `Except.error`. -/
def loadGlobalSubmitterConfig :
    Option RawSubmitterConfig → Except String GlobalSubmitterConfig
  | none => .error "TypeError: Cannot read properties of undefined"
  | some submitterConfig => .ok (loadGlobalSubmitterBody submitterConfig)

/-- `getChainGasLimitBufferConfig`: start from an empty record, copy in the
global (default) map, then copy in the chain-level map, with JS assignment
semantics. -/
def getChainGasLimitBufferConfig
    (defaultGasLimitBufferConfig chainGasLimitBufferConfig : GasRecord) :
    GasRecord :=
  let gasLimitBuffers : GasRecord := []
  let gasLimitBuffers := applyEntries gasLimitBuffers defaultGasLimitBufferConfig
  let gasLimitBuffers := applyEntries gasLimitBuffers chainGasLimitBufferConfig
  gasLimitBuffers

/-- The `ambsConfig.forEach` loop of `loadWorkerConfig`: build the
`incentivesAddresses` map by `Map.set(amb.name, amb.getIncentivesAddress(chainId))`
per registered adapter, in registration order; a throwing lookup escapes the
loop. -/
def buildIncentivesGo (chainId : String) (acc : List (String × String)) :
    List AmbConfig → Except String (List (String × String))
  | [] => .ok acc
  | amb :: rest =>
    match amb.getIncentivesAddress chainId with
    | .error e => .error e
    | .ok addr => buildIncentivesGo chainId (setKey acc amb.name addr) rest

/-- The `incentivesAddresses` map `loadWorkerConfig` builds for a chain. -/
def buildIncentivesAddresses (ambsConfig : List AmbConfig) (chainId : String) :
    Except String (List (String × String)) :=
  buildIncentivesGo chainId [] ambsConfig

/-- `loadWorkerConfig`: merge the chain override with the global config
(`chainConfig.submitter.field ?? globalConfig.field` per scalar,
`getChainGasLimitBufferConfig` for the buffer map), collect the incentives
addresses, and pass the five gas-strategy knobs through unresolved. -/
def loadWorkerConfig (chainConfig : ChainConfig)
    (globalConfig : GlobalSubmitterConfig) (ambsConfig : List AmbConfig)
    (relayerPrivateKey : String) (loggerOptions : String) :
    Except String SubmitterWorkerData :=
  match buildIncentivesAddresses ambsConfig chainConfig.chainId with
  | .error e => .error e
  | .ok incentivesAddresses =>
    .ok {
      chainId := chainConfig.chainId
      rpc := chainConfig.rpc
      relayerPrivateKey
      incentivesAddresses
      newOrdersDelay :=
        chainConfig.submitter.newOrdersDelay.getD globalConfig.newOrdersDelay
      retryInterval :=
        chainConfig.submitter.retryInterval.getD globalConfig.retryInterval
      processingInterval :=
        chainConfig.submitter.processingInterval.getD globalConfig.processingInterval
      maxTries := chainConfig.submitter.maxTries.getD globalConfig.maxTries
      maxPendingTransactions :=
        chainConfig.submitter.maxPendingTransactions.getD
          globalConfig.maxPendingTransactions
      transactionTimeout :=
        chainConfig.submitter.transactionTimeout.getD globalConfig.transactionTimeout
      gasLimitBuffer :=
        getChainGasLimitBufferConfig globalConfig.gasLimitBuffer
          (chainConfig.submitter.gasLimitBuffer.getD [])
      maxFeePerGas := chainConfig.submitter.maxFeePerGas
      maxPriorityFeeAdjustmentFactor :=
        chainConfig.submitter.maxPriorityFeeAdjustmentFactor
      maxAllowedPriorityFeePerGas :=
        chainConfig.submitter.maxAllowedPriorityFeePerGas
      gasPriceAdjustmentFactor := chainConfig.submitter.gasPriceAdjustmentFactor
      maxAllowedGasPrice := chainConfig.submitter.maxAllowedGasPrice
      loggerOptions }

/-! ## The Submitter Supervisor (`onModuleInit` and the worker observers) -/

inductive LogLevel
  | info
  | fatal
deriving DecidableEq

/-- One structured log emission: a level, an optional attached error object
(first argument of `loggerService.fatal(error, msg)`), and the message. -/
structure LogEvent where
  level : LogLevel
  detail : Option String
  message : String
deriving DecidableEq

def startingLog : LogEvent :=
  ⟨LogLevel.info, none, "Starting the submitter on all chains..."⟩

def disabledLog : LogEvent :=
  ⟨LogLevel.info, none, "Submitter has been disabled. Ending init early"⟩

/-- The observable outcome of running `onModuleInit`: the logs emitted, the
`workers` map (keyed by chain id, each worker identified by the
`workerData` payload it was seeded with), and the uncaught exception that
escaped the method, if any. -/
structure InitOutcome where
  logs : List LogEvent
  workers : List (String × SubmitterWorkerData)
  error : Option String
deriving DecidableEq

/-- One iteration of the `onModuleInit` chain loop: once an exception has
escaped, no further chain is processed; otherwise resolve the chain's worker
config and record the started worker under its chain id (a construction
failure becomes the loop's uncaught exception — there is no try/catch in the
source). -/
def initStep (globalConfig : GlobalSubmitterConfig) (ambsConfig : List AmbConfig)
    (relayerPrivateKey loggerOptions : String) (st : InitOutcome)
    (chainConfig : ChainConfig) : InitOutcome :=
  match st.error with
  | some _ => st
  | none =>
    match loadWorkerConfig chainConfig globalConfig ambsConfig relayerPrivateKey
        loggerOptions with
    | .error e => { st with error := some e }
    | .ok workerData =>
      { st with workers := setKey st.workers chainConfig.chainId workerData }

/-- `onModuleInit`: log the start message, resolve the global config (a
throw there escapes), return early when the submitter is disabled, and
otherwise run the per-chain loop. -/
def onModuleInit (rawSubmitter : Option RawSubmitterConfig)
    (chainsConfig : List ChainConfig) (ambsConfig : List AmbConfig)
    (relayerPrivateKey loggerOptions : String) : InitOutcome :=
  match loadGlobalSubmitterConfig rawSubmitter with
  | .error e => ⟨[startingLog], [], some e⟩
  | .ok globalSubmitterConfig =>
    if globalSubmitterConfig.enabled = false then
      ⟨[startingLog, disabledLog], [], none⟩
    else
      chainsConfig.foldl
        (initStep globalSubmitterConfig ambsConfig relayerPrivateKey loggerOptions)
        ⟨[startingLog], [], none⟩

/-- A lifecycle event observed on a started worker. -/
inductive WorkerEvent
  | errorEvent (err : String)
  | exitEvent (exitCode : Int)

/-- The `worker.on('error', ...)` observer body for a chain. -/
def workerErrorLog (chainId err : String) : LogEvent :=
  ⟨LogLevel.fatal, some err,
    "Error on submitter worker (chain " ++ (chainId ++ ").")⟩

/-- The `worker.on('exit', ...)` observer body for a chain. -/
def workerExitLog (chainId : String) (exitCode : Int) : LogEvent :=
  ⟨LogLevel.fatal, none,
    "Submitter worker exited with code " ++
      (toString exitCode ++ (" (chain " ++ (chainId ++ ").")))⟩

/-- What the supervisor does when a started worker for `chainId` transitions
to `Errored` or `Exited`: the registered observer fires, emitting exactly its
one fatal log; the `workers` map is not touched (no restart, back-off or
replacement exists in the source). -/
def handleWorkerEvent (chainId : String)
    (workers : List (String × SubmitterWorkerData)) (ev : WorkerEvent) :
    List (String × SubmitterWorkerData) × List LogEvent :=
  match ev with
  | .errorEvent err => (workers, [workerErrorLog chainId err])
  | .exitEvent exitCode => (workers, [workerExitLog chainId exitCode])

/-! ## Store-passing embedding for the in-place `gasLimitBuffer` mutation -/

/-- A heap of JS record objects; an address is an index. -/
abbrev GasStore := List GasRecord

/-- The `gasLimitBuffer` portion of `loadGlobalSubmitterConfig`, embedded
with an explicit store so that object identity is visible:
`const gasLimitBuffer = submitterConfig.gasLimitBuffer ?? {};` either aliases
the caller-owned record (when present: `raw = some addr`) or allocates a
fresh empty one, and `gasLimitBuffer['default'] = 0` then writes through the
reference.  Returns the updated store and the address stored in the resolved
config. -/
def loadGlobalGasLimitBufferRef (store : GasStore) (raw : Option Nat) :
    GasStore × Nat :=
  let addr := match raw with | some a => a | none => store.length
  let store := match raw with | some _ => store | none => store ++ [[]]
  let m := store.getD addr []
  if hasKey m "default" then (store, addr)
  else (store.set addr (setKey m "default" 0), addr)

def isOkExcept {ε α : Type} : Except ε α → Bool
  | .ok _ => true
  | .error _ => false

/-- The address an adapter's lookup yields for a chain, when it succeeds. -/
def ambAddressOr (chainId : String) (a : AmbConfig) : String :=
  match a.getIncentivesAddress chainId with
  | .ok v => v
  | .error _ => ""

/-! ## Concrete fixtures -/

/-- A chain submitter override section with every field absent. -/
def emptyChainSubmitter : ChainSubmitterConfig := {}

/-- A raw global submitter section with every field absent. -/
def rawAllNone : RawSubmitterConfig := {}

/-- An adapter whose lookup always succeeds. -/
def okAmb : AmbConfig := ⟨"mock", fun _ => .ok "0xabc"⟩

/-- An adapter whose lookup throws for chain "1" and succeeds elsewhere. -/
def failAmb : AmbConfig :=
  ⟨"mock", fun chainId =>
    if chainId == "1" then .error "No incentives address" else .ok "0xabc"⟩

def chainPlain : ChainConfig := ⟨"1", "rpcUrl", emptyChainSubmitter⟩

def chain1 : ChainConfig := ⟨"1", "rpc1", emptyChainSubmitter⟩

def chain2 : ChainConfig := ⟨"2", "rpc2", emptyChainSubmitter⟩

/-- The worker data `loadWorkerConfig` resolves for `chainPlain` under the
all-defaults global config with the single always-ok adapter. -/
def wdEx : SubmitterWorkerData :=
  ⟨"1", "rpcUrl", "pk", [("mock", "0xabc")], 0, 2000, 100, 3, 1000, 600000,
    [("default", 0)], none, none, none, none, none, "lo"⟩

def ambA : AmbConfig := ⟨"amb", fun _ => .ok "0xA"⟩

def ambB : AmbConfig := ⟨"amb", fun _ => .ok "0xB"⟩

/-! ## Record toolkit lemmas -/

@[simp] theorem recKeys_nil {α : Type u} : recKeys ([] : List (String × α)) = [] := rfl

@[simp] theorem recKeys_cons {α : Type u} (p : String × α) (m : List (String × α)) :
    recKeys (p :: m) = p.1 :: recKeys m := rfl

theorem recKeys_append {α : Type u} (l1 l2 : List (String × α)) :
    recKeys (l1 ++ l2) = recKeys l1 ++ recKeys l2 :=
  List.map_append _ _ _

theorem mem_recKeys {α : Type u} {m : List (String × α)} {p : String × α}
    (h : p ∈ m) : p.1 ∈ recKeys m :=
  List.mem_map_of_mem Prod.fst h

theorem hasKey_append {α : Type u} (l1 l2 : List (String × α)) (k : String) :
    hasKey (l1 ++ l2) k = (hasKey l1 k || hasKey l2 k) := by
  induction l1 with
  | nil => simp [hasKey]
  | cons p rest ih => simp [hasKey, ih, Bool.or_assoc]

theorem hasKey_iff_mem {α : Type u} (m : List (String × α)) (k : String) :
    hasKey m k = true ↔ k ∈ recKeys m := by
  induction m with
  | nil => simp [hasKey]
  | cons p rest ih =>
    simp [hasKey, ih]
    constructor
    · rintro (h | h)
      · exact Or.inl h.symm
      · exact Or.inr h
    · rintro (h | h)
      · exact Or.inl h.symm
      · exact Or.inr h

theorem getKey?_eq_none_of_not_hasKey {α : Type u} {m : List (String × α)}
    {k : String} (h : hasKey m k = false) : getKey? m k = none := by
  induction m with
  | nil => rfl
  | cons p rest ih =>
    simp [hasKey] at h
    simp [getKey?, h.1, ih h.2]

theorem hasKey_of_getKey?_eq_some {α : Type u} {m : List (String × α)}
    {k : String} {v : α} (h : getKey? m k = some v) : hasKey m k = true := by
  induction m with
  | nil => simp [getKey?] at h
  | cons p rest ih =>
    by_cases hp : p.1 = k
    · simp [hasKey, hp]
    · simp [getKey?, hp] at h
      simp [hasKey, hp, ih h]

theorem getKey?_isSome_of_hasKey {α : Type u} {m : List (String × α)} {k : String}
    (h : hasKey m k = true) : ∃ v, getKey? m k = some v := by
  induction m with
  | nil => simp [hasKey] at h
  | cons p rest ih =>
    by_cases hp : p.1 = k
    · exact ⟨p.2, by simp [getKey?, hp]⟩
    · simp [hasKey, hp] at h
      obtain ⟨v, hv⟩ := ih h
      exact ⟨v, by simp [getKey?, hp, hv]⟩

theorem hasKey_overwriteKey {α : Type u} (m : List (String × α)) (k : String)
    (v : α) (k2 : String) : hasKey (overwriteKey m k v) k2 = hasKey m k2 := by
  induction m with
  | nil => rfl
  | cons p rest ih =>
    by_cases hp : p.1 = k
    · simp [overwriteKey, hasKey, hp, ih]
    · simp [overwriteKey, hasKey, hp, ih]

theorem overwriteKey_of_not_hasKey {α : Type u} {m : List (String × α)}
    {k : String} (v : α) (h : hasKey m k = false) : overwriteKey m k v = m := by
  induction m with
  | nil => rfl
  | cons p rest ih =>
    simp [hasKey] at h
    simp [overwriteKey, h.1, ih h.2]

theorem hasKey_setKey {α : Type u} (m : List (String × α)) (k : String) (v : α)
    (k2 : String) : hasKey (setKey m k v) k2 = (hasKey m k2 || (k2 == k)) := by
  cases h : hasKey m k with
  | true =>
    rw [setKey, if_pos (by simp [h]), hasKey_overwriteKey]
    by_cases hk : k2 = k
    · subst hk; simp [h]
    · simp [hk]
  | false =>
    rw [setKey, if_neg (by simp [h]), hasKey_append]
    by_cases hk : k2 = k
    · subst hk; simp [hasKey]
    · have hk2 : ¬(k = k2) := fun e => hk (Eq.symm e)
      have e1 : (k == k2) = false := by simp [hk2]
      have e2 : (k2 == k) = false := by simp [hk]
      simp [hasKey, e1, e2]

theorem getKey?_append {α : Type u} (l1 l2 : List (String × α)) (k : String) :
    getKey? (l1 ++ l2) k =
      match getKey? l1 k with
      | some v => some v
      | none => getKey? l2 k := by
  induction l1 with
  | nil => rfl
  | cons p rest ih =>
    by_cases hp : p.1 = k <;> simp [getKey?, hp, ih]

theorem getKey?_overwriteKey_self {α : Type u} {m : List (String × α)}
    {k : String} {v : α} (h : hasKey m k = true) :
    getKey? (overwriteKey m k v) k = some v := by
  induction m with
  | nil => simp [hasKey] at h
  | cons p rest ih =>
    by_cases hp : p.1 = k
    · simp [overwriteKey, getKey?, hp]
    · simp [hasKey, hp] at h
      simp [overwriteKey, getKey?, hp, ih h]

theorem getKey?_overwriteKey_ne {α : Type u} (m : List (String × α)) (k : String)
    (v : α) {k2 : String} (h : ¬(k2 = k)) :
    getKey? (overwriteKey m k v) k2 = getKey? m k2 := by
  induction m with
  | nil => rfl
  | cons p rest ih =>
    by_cases hp : p.1 = k
    · have hk : ¬(k = k2) := fun e => h (Eq.symm e)
      simp [overwriteKey, getKey?, hp, hk, ih]
    · by_cases hp2 : p.1 = k2 <;> simp [overwriteKey, getKey?, hp, hp2, h, ih]

theorem getKey?_setKey {α : Type u} (m : List (String × α)) (k : String) (v : α)
    (k2 : String) :
    getKey? (setKey m k v) k2 = if k2 = k then some v else getKey? m k2 := by
  by_cases hk : k2 = k
  · subst hk
    cases h : hasKey m k2 with
    | true =>
      rw [setKey, if_pos (by simp [h])]
      simp [getKey?_overwriteKey_self h]
    | false =>
      rw [setKey, if_neg (by simp [h]), getKey?_append,
        getKey?_eq_none_of_not_hasKey h]
      simp [getKey?]
  · cases h : hasKey m k with
    | true =>
      rw [setKey, if_pos (by simp [h])]
      simp [getKey?_overwriteKey_ne _ _ _ hk, hk]
    | false =>
      rw [setKey, if_neg (by simp [h]), getKey?_append]
      have hk2 : ¬(k = k2) := fun e => hk e.symm
      cases hm : getKey? m k2 <;> simp [getKey?, hk, hk2, hm]

theorem lookupLast_eq_none_of_not_hasKey {α : Type u} {m : List (String × α)}
    {k : String} (h : hasKey m k = false) : lookupLast m k = none := by
  induction m with
  | nil => rfl
  | cons p rest ih =>
    simp [hasKey] at h
    simp [lookupLast, ih h.2, h.1]

theorem getKey?_of_mem_nodup {α : Type u} {m : List (String × α)} {p : String × α}
    (hnd : (recKeys m).Nodup) (hp : p ∈ m) : getKey? m p.1 = some p.2 := by
  induction m with
  | nil => simp at hp
  | cons q rest ih =>
    simp [List.nodup_cons] at hnd
    rcases List.mem_cons.mp hp with h | h
    · subst h; simp [getKey?]
    · have hne : ¬(q.1 = p.1) := by
        intro e
        exact hnd.1 (e ▸ mem_recKeys h)
      simp [getKey?, hne, ih hnd.2 h]

theorem lookupLast_eq_getKey?_of_nodup {α : Type u} {m : List (String × α)}
    (hnd : (recKeys m).Nodup) (k : String) : lookupLast m k = getKey? m k := by
  induction m with
  | nil => rfl
  | cons p rest ih =>
    simp [List.nodup_cons] at hnd
    by_cases hp : p.1 = k
    · subst hp
      have hrest : hasKey rest p.1 = false := by
        cases h : hasKey rest p.1 with
        | false => rfl
        | true => exact absurd ((hasKey_iff_mem _ _).mp h) hnd.1
      simp [lookupLast, getKey?, lookupLast_eq_none_of_not_hasKey hrest]
    · cases hgr : lookupLast rest k <;>
        simp [lookupLast, getKey?, hp, hgr, (ih hnd.2).symm]

/-! ## applyEntries (JS copy-loop) lemmas -/

@[simp] theorem applyEntries_nil {α : Type u} (acc : List (String × α)) :
    applyEntries acc [] = acc := rfl

@[simp] theorem applyEntries_cons {α : Type u} (acc : List (String × α))
    (p : String × α) (rest : List (String × α)) :
    applyEntries acc (p :: rest) = applyEntries (setKey acc p.1 p.2) rest := rfl

theorem getKey?_applyEntries {α : Type u} (entries : List (String × α))
    (acc : List (String × α)) (k : String) :
    getKey? (applyEntries acc entries) k =
      match lookupLast entries k with
      | some v => some v
      | none => getKey? acc k := by
  induction entries generalizing acc with
  | nil => simp [lookupLast]
  | cons p rest ih =>
    rw [applyEntries_cons, ih]
    cases hr : lookupLast rest k with
    | some v => simp [lookupLast, hr]
    | none =>
      by_cases hp : p.1 = k
      · simp [lookupLast, hr, getKey?_setKey, hp]
      · have hk : ¬(k = p.1) := fun e => hp (Eq.symm e)
        simp [lookupLast, hr, getKey?_setKey, hp, hk]

theorem hasKey_applyEntries {α : Type u} (entries : List (String × α))
    (acc : List (String × α)) (k : String) :
    hasKey (applyEntries acc entries) k = (hasKey acc k || hasKey entries k) := by
  induction entries generalizing acc with
  | nil => simp [hasKey]
  | cons p rest ih =>
    rw [applyEntries_cons, ih, hasKey_setKey]
    by_cases hp : p.1 = k
    · subst hp; simp [hasKey]
    · have hk : ¬(k = p.1) := fun e => hp (Eq.symm e)
      have e1 : (k == p.1) = false := by simp [hk]
      have e2 : (p.1 == k) = false := by simp [hp]
      simp [hasKey, e1, e2]

theorem recKeys_overwriteKey {α : Type u} (m : List (String × α)) (k : String)
    (v : α) : recKeys (overwriteKey m k v) = recKeys m := by
  induction m with
  | nil => rfl
  | cons p rest ih =>
    by_cases hp : p.1 = k <;> simp [overwriteKey, hp, ih]

theorem nodup_recKeys_setKey {α : Type u} {m : List (String × α)} (k : String)
    (v : α) (hnd : (recKeys m).Nodup) : (recKeys (setKey m k v)).Nodup := by
  cases h : hasKey m k with
  | true =>
    rw [setKey, if_pos (by simp [h]), recKeys_overwriteKey]
    exact hnd
  | false =>
    have hk : k ∉ recKeys m := fun hm => by
      rw [(hasKey_iff_mem m k).mpr hm] at h
      cases h
    rw [setKey, if_neg (by simp [h]), recKeys_append]
    simp [List.nodup_append, hnd, hk]

theorem nodup_recKeys_applyEntries {α : Type u} (entries : List (String × α))
    (acc : List (String × α)) (hnd : (recKeys acc).Nodup) :
    (recKeys (applyEntries acc entries)).Nodup := by
  induction entries generalizing acc with
  | nil => simpa
  | cons p rest ih => exact ih _ (nodup_recKeys_setKey _ _ hnd)

theorem setKey_of_not_hasKey {α : Type u} {m : List (String × α)} {k : String}
    (v : α) (h : hasKey m k = false) : setKey m k v = m ++ [(k, v)] := by
  rw [setKey, if_neg (by simp [h])]

theorem applyEntries_of_disjoint {α : Type u} {entries : List (String × α)}
    {acc : List (String × α)}
    (hd : ∀ p ∈ entries, hasKey acc p.1 = false)
    (hnd : (recKeys entries).Nodup) : applyEntries acc entries = acc ++ entries := by
  induction entries generalizing acc with
  | nil => simp
  | cons p rest ih =>
    simp [List.nodup_cons] at hnd
    rw [applyEntries_cons, setKey_of_not_hasKey _ (hd p (by simp))]
    rw [ih ?_ hnd.2]
    · simp
    · intro q hq
      rw [hasKey_append]
      have h1 : hasKey acc q.1 = false := hd q (by simp [hq])
      have h2 : hasKey [(p.1, p.2)] q.1 = false := by
        have hne : ¬(p.1 = q.1) := by
          intro e
          exact hnd.1 (e ▸ mem_recKeys hq)
        simp [hasKey, hne]
      simp [h1, h2]

theorem overwriteKey_eq_self {α : Type u} {m : List (String × α)} {k : String}
    {v : α} (hnd : (recKeys m).Nodup) (h : getKey? m k = some v) :
    overwriteKey m k v = m := by
  induction m with
  | nil => rfl
  | cons p rest ih =>
    simp [List.nodup_cons] at hnd
    by_cases hp : p.1 = k
    · subst hp
      have hv : v = p.2 := by
        simp [getKey?] at h
        exact h.symm
      have hrest : hasKey rest p.1 = false := by
        cases hh : hasKey rest p.1 with
        | false => rfl
        | true => exact absurd ((hasKey_iff_mem _ _).mp hh) hnd.1
      simp [overwriteKey, hv, overwriteKey_of_not_hasKey _ hrest]
    · simp [getKey?, hp] at h
      simp [overwriteKey, hp, ih hnd.2 h]

theorem setKey_of_getKey?_eq {α : Type u} {m : List (String × α)} {k : String}
    {v : α} (hnd : (recKeys m).Nodup) (h : getKey? m k = some v) :
    setKey m k v = m := by
  rw [setKey, if_pos (by simp [hasKey_of_getKey?_eq_some h])]
  exact overwriteKey_eq_self hnd h

theorem applyEntries_absorb {α : Type u} {r entries : List (String × α)}
    (hnd : (recKeys r).Nodup) (h : ∀ p ∈ entries, getKey? r p.1 = some p.2) :
    applyEntries r entries = r := by
  induction entries with
  | nil => rfl
  | cons p rest ih =>
    rw [applyEntries_cons, setKey_of_getKey?_eq hnd (h p (by simp))]
    exact ih fun q hq => h q (by simp [hq])

/-! ## Characterization of the two-level gasLimitBuffer merge -/

theorem getChainGasLimitBufferConfig_eq (g c : GasRecord) :
    getChainGasLimitBufferConfig g c = applyEntries (applyEntries [] g) c := rfl

theorem getKey?_getChainGasLimitBufferConfig (g c : GasRecord)
    (hg : (recKeys g).Nodup) (hc : (recKeys c).Nodup) (k : String) :
    getKey? (getChainGasLimitBufferConfig g c) k =
      if hasKey c k then getKey? c k else getKey? g k := by
  rw [getChainGasLimitBufferConfig_eq, getKey?_applyEntries, getKey?_applyEntries,
    lookupLast_eq_getKey?_of_nodup hc, lookupLast_eq_getKey?_of_nodup hg]
  cases h : getKey? c k with
  | some v => simp [hasKey_of_getKey?_eq_some h, h]
  | none =>
    have hck : hasKey c k = false := by
      cases hh : hasKey c k with
      | false => rfl
      | true =>
        obtain ⟨v, hv⟩ := getKey?_isSome_of_hasKey hh
        rw [hv] at h
        cases h
    cases hgk : getKey? g k <;> simp [hck, hgk, getKey?]

theorem hasKey_getChainGasLimitBufferConfig (g c : GasRecord) (k : String) :
    hasKey (getChainGasLimitBufferConfig g c) k = (hasKey g k || hasKey c k) := by
  rw [getChainGasLimitBufferConfig_eq, hasKey_applyEntries, hasKey_applyEntries]
  simp [hasKey]

theorem nodup_recKeys_getChainGasLimitBufferConfig (g c : GasRecord) :
    (recKeys (getChainGasLimitBufferConfig g c)).Nodup := by
  rw [getChainGasLimitBufferConfig_eq]
  exact nodup_recKeys_applyEntries _ _ (nodup_recKeys_applyEntries _ _ (by simp))

theorem getChainGasLimitBufferConfig_idem (g c : GasRecord)
    (hc : (recKeys c).Nodup) :
    getChainGasLimitBufferConfig (getChainGasLimitBufferConfig g c) c =
      getChainGasLimitBufferConfig g c := by
  have hndr : (recKeys (getChainGasLimitBufferConfig g c)).Nodup :=
    nodup_recKeys_getChainGasLimitBufferConfig g c
  have habs : ∀ p ∈ c, getKey? (getChainGasLimitBufferConfig g c) p.1 = some p.2 := by
    intro p hp
    rw [getChainGasLimitBufferConfig_eq, getKey?_applyEntries,
      lookupLast_eq_getKey?_of_nodup hc, getKey?_of_mem_nodup hc hp]
  have hid : applyEntries [] (getChainGasLimitBufferConfig g c) =
      getChainGasLimitBufferConfig g c := by
    have hgen := @applyEntries_of_disjoint _ (getChainGasLimitBufferConfig g c) []
      (fun p _ => rfl) hndr
    simpa using hgen
  rw [getChainGasLimitBufferConfig_eq (getChainGasLimitBufferConfig g c) c, hid]
  exact applyEntries_absorb hndr habs

/-! ## Incentives-address map lemmas -/

theorem buildIncentivesGo_spec (chainId : String) (f : AmbConfig → String)
    (ambs : List AmbConfig) (acc : List (String × String))
    (hok : ∀ a ∈ ambs, a.getIncentivesAddress chainId = .ok (f a))
    (hdisj : ∀ a ∈ ambs, hasKey acc a.name = false)
    (hnd : (ambs.map AmbConfig.name).Nodup) :
    buildIncentivesGo chainId acc ambs =
      .ok (acc ++ ambs.map fun a => (a.name, f a)) := by
  induction ambs generalizing acc with
  | nil => simp [buildIncentivesGo]
  | cons a rest ih =>
    simp only [List.map_cons, List.nodup_cons] at hnd
    have ha := hok a (List.mem_cons_self a rest)
    rw [buildIncentivesGo, ha]
    show buildIncentivesGo chainId (setKey acc a.name (f a)) rest =
      Except.ok (acc ++ List.map (fun b => (b.name, f b)) (a :: rest))
    rw [setKey_of_not_hasKey _ (hdisj a (List.mem_cons_self a rest))]
    rw [ih _ (fun b hb => hok b (List.mem_cons_of_mem a hb)) ?_ hnd.2]
    · simp
    · intro b hb
      rw [hasKey_append]
      have h1 : hasKey acc b.name = false := hdisj b (List.mem_cons_of_mem a hb)
      have h2 : hasKey [(a.name, f a)] b.name = false := by
        have hne : ¬(a.name = b.name) := by
          intro e
          exact hnd.1 (e ▸ List.mem_map_of_mem AmbConfig.name hb)
        simp [hasKey, hne]
      simp [h1, h2]

theorem buildIncentivesAddresses_map_of_nodup (ambs : List AmbConfig)
    (chainId : String) (f : AmbConfig → String)
    (hnd : (ambs.map AmbConfig.name).Nodup)
    (hok : ∀ a ∈ ambs, a.getIncentivesAddress chainId = .ok (f a)) :
    buildIncentivesAddresses ambs chainId =
      .ok (ambs.map fun a => (a.name, f a)) := by
  have h := buildIncentivesGo_spec chainId f ambs [] hok (fun a _ => rfl) hnd
  simpa [buildIncentivesAddresses] using h

theorem length_overwriteKey {α : Type u} (m : List (String × α)) (k : String)
    (v : α) : (overwriteKey m k v).length = m.length := by
  induction m with
  | nil => rfl
  | cons p rest ih => simp [overwriteKey, ih]

theorem length_setKey_le {α : Type u} (m : List (String × α)) (k : String)
    (v : α) : (setKey m k v).length ≤ m.length + 1 := by
  cases h : hasKey m k with
  | true =>
    rw [setKey, if_pos (by simp [h]), length_overwriteKey]
    omega
  | false =>
    rw [setKey, if_neg (by simp [h])]
    simp

theorem buildIncentivesGo_length (chainId : String) (ambs : List AmbConfig) :
    ∀ (acc : List (String × String)) (m : List (String × String)),
      buildIncentivesGo chainId acc ambs = .ok m →
      m.length ≤ acc.length + ambs.length := by
  induction ambs with
  | nil =>
    intro acc m h
    simp [buildIncentivesGo] at h
    simp [h]
  | cons a rest ih =>
    intro acc m h
    rw [buildIncentivesGo] at h
    cases ha : a.getIncentivesAddress chainId with
    | error e => rw [ha] at h; cases h
    | ok v =>
      rw [ha] at h
      have := ih (setKey acc a.name v) m h
      have hle := length_setKey_le acc a.name v
      simp only [List.length_cons]
      omega

theorem buildIncentivesGo_all_ok (chainId : String) (ambs : List AmbConfig) :
    ∀ (acc : List (String × String)) (m : List (String × String)),
      buildIncentivesGo chainId acc ambs = .ok m →
      ∀ a ∈ ambs, ∃ v, a.getIncentivesAddress chainId = .ok v := by
  induction ambs with
  | nil => intro acc m _ a ha; simp at ha
  | cons b rest ih =>
    intro acc m h a ha
    rw [buildIncentivesGo] at h
    cases hb : b.getIncentivesAddress chainId with
    | error e => rw [hb] at h; cases h
    | ok v =>
      rw [hb] at h
      rcases List.mem_cons.mp ha with rfl | ha2
      · exact ⟨v, hb⟩
      · exact ih _ m h a ha2

/-! ## Supervisor initialization loop lemmas -/

theorem initStep_of_error (globalConfig : GlobalSubmitterConfig)
    (ambsConfig : List AmbConfig) (pk lo : String) (st : InitOutcome)
    (cc : ChainConfig) (e : String) (h : st.error = some e) :
    initStep globalConfig ambsConfig pk lo st cc = st := by
  rw [initStep, h]

theorem foldl_initStep_of_error (globalConfig : GlobalSubmitterConfig)
    (ambsConfig : List AmbConfig) (pk lo : String) (chains : List ChainConfig)
    (st : InitOutcome) (e : String) (h : st.error = some e) :
    chains.foldl (initStep globalConfig ambsConfig pk lo) st = st := by
  induction chains with
  | nil => rfl
  | cons c rest ih =>
    rw [List.foldl_cons, initStep_of_error _ _ _ _ _ _ _ h, ih]

theorem foldl_initStep_ok_error (globalConfig : GlobalSubmitterConfig)
    (ambsConfig : List AmbConfig) (pk lo : String) (chains : List ChainConfig) :
    ∀ st : InitOutcome, st.error = none →
      (∀ c ∈ chains,
        isOkExcept (loadWorkerConfig c globalConfig ambsConfig pk lo) = true) →
      (chains.foldl (initStep globalConfig ambsConfig pk lo) st).error = none := by
  induction chains with
  | nil => intro st hst _; simpa
  | cons c rest ih =>
    intro st hst hok
    rw [List.foldl_cons]
    have hc := hok c (List.mem_cons_self c rest)
    cases hl : loadWorkerConfig c globalConfig ambsConfig pk lo with
    | error e => rw [hl] at hc; cases hc
    | ok wd =>
      apply ih _ ?_ fun b hb => hok b (List.mem_cons_of_mem c hb)
      rw [initStep, hst, hl]

theorem stringAppendAssoc (a b c : String) : (a ++ b) ++ c = a ++ (b ++ c) := by
  cases a with
  | mk x =>
    cases b with
    | mk y =>
      cases c with
      | mk z =>
        show String.mk ((x ++ y) ++ z) = String.mk (x ++ (y ++ z))
        rw [List.append_assoc]

/-! ## loadWorkerConfig projections -/

theorem loadWorkerConfig_fields {cc : ChainConfig} {gc : GlobalSubmitterConfig}
    {ambs : List AmbConfig} {pk lo : String} {wd : SubmitterWorkerData}
    (h : loadWorkerConfig cc gc ambs pk lo = .ok wd) :
    wd.chainId = cc.chainId ∧ wd.rpc = cc.rpc ∧ wd.relayerPrivateKey = pk ∧
    buildIncentivesAddresses ambs cc.chainId = .ok wd.incentivesAddresses ∧
    wd.newOrdersDelay = cc.submitter.newOrdersDelay.getD gc.newOrdersDelay ∧
    wd.retryInterval = cc.submitter.retryInterval.getD gc.retryInterval ∧
    wd.processingInterval =
      cc.submitter.processingInterval.getD gc.processingInterval ∧
    wd.maxTries = cc.submitter.maxTries.getD gc.maxTries ∧
    wd.maxPendingTransactions =
      cc.submitter.maxPendingTransactions.getD gc.maxPendingTransactions ∧
    wd.transactionTimeout =
      cc.submitter.transactionTimeout.getD gc.transactionTimeout ∧
    wd.gasLimitBuffer =
      getChainGasLimitBufferConfig gc.gasLimitBuffer
        (cc.submitter.gasLimitBuffer.getD []) ∧
    wd.maxFeePerGas = cc.submitter.maxFeePerGas ∧
    wd.maxPriorityFeeAdjustmentFactor =
      cc.submitter.maxPriorityFeeAdjustmentFactor ∧
    wd.maxAllowedPriorityFeePerGas =
      cc.submitter.maxAllowedPriorityFeePerGas ∧
    wd.gasPriceAdjustmentFactor = cc.submitter.gasPriceAdjustmentFactor ∧
    wd.maxAllowedGasPrice = cc.submitter.maxAllowedGasPrice ∧
    wd.loggerOptions = lo := by
  rw [loadWorkerConfig] at h
  cases hb : buildIncentivesAddresses ambs cc.chainId with
  | error e => rw [hb] at h; cases h
  | ok inc =>
    rw [hb] at h
    cases h
    exact ⟨rfl, rfl, rfl, rfl, rfl, rfl, rfl, rfl, rfl, rfl, rfl, rfl, rfl,
      rfl, rfl, rfl, rfl⟩

/-! ## Claim theorems -/

/-- Claim C1: every scalar submitter field (newOrdersDelay, retryInterval,
processingInterval, maxTries, maxPendingTransactions, transactionTimeout) is
resolved by `loadWorkerConfig` to the chain-level override when present and
to the global value otherwise; a chain with an empty submitter override
resolves to the global values field-by-field; and with global `maxTries`
unset, a chain override of `maxTries = 5` resolves to `5` while an absent
override resolves to the documented default `3`. -/
theorem c1_scalar_merge_resolution :
    (∀ (cc : ChainConfig) (gc : GlobalSubmitterConfig) (ambs : List AmbConfig)
      (pk lo : String) (wd : SubmitterWorkerData),
      loadWorkerConfig cc gc ambs pk lo = .ok wd →
        wd.newOrdersDelay = cc.submitter.newOrdersDelay.getD gc.newOrdersDelay ∧
        wd.retryInterval = cc.submitter.retryInterval.getD gc.retryInterval ∧
        wd.processingInterval =
          cc.submitter.processingInterval.getD gc.processingInterval ∧
        wd.maxTries = cc.submitter.maxTries.getD gc.maxTries ∧
        wd.maxPendingTransactions =
          cc.submitter.maxPendingTransactions.getD gc.maxPendingTransactions ∧
        wd.transactionTimeout =
          cc.submitter.transactionTimeout.getD gc.transactionTimeout) ∧
    (∀ (cc : ChainConfig) (gc : GlobalSubmitterConfig) (ambs : List AmbConfig)
      (pk lo : String) (wd : SubmitterWorkerData),
      cc.submitter = emptyChainSubmitter →
      loadWorkerConfig cc gc ambs pk lo = .ok wd →
        wd.newOrdersDelay = gc.newOrdersDelay ∧
        wd.retryInterval = gc.retryInterval ∧
        wd.processingInterval = gc.processingInterval ∧
        wd.maxTries = gc.maxTries ∧
        wd.maxPendingTransactions = gc.maxPendingTransactions ∧
        wd.transactionTimeout = gc.transactionTimeout) ∧
    (∀ (raw : RawSubmitterConfig) (cc : ChainConfig) (ambs : List AmbConfig)
      (pk lo : String) (wd : SubmitterWorkerData),
      raw.maxTries = none →
      loadWorkerConfig cc (loadGlobalSubmitterBody raw) ambs pk lo = .ok wd →
        (cc.submitter.maxTries = some 5 → wd.maxTries = 5) ∧
        (cc.submitter.maxTries = none → wd.maxTries = 3)) := by
  refine ⟨?_, ?_, ?_⟩
  · intro cc gc ambs pk lo wd h
    obtain ⟨_, _, _, _, h5, h6, h7, h8, h9, h10, _⟩ := loadWorkerConfig_fields h
    exact ⟨h5, h6, h7, h8, h9, h10⟩
  · intro cc gc ambs pk lo wd hemp h
    obtain ⟨_, _, _, _, h5, h6, h7, h8, h9, h10, _⟩ := loadWorkerConfig_fields h
    rw [hemp] at h5 h6 h7 h8 h9 h10
    exact ⟨h5, h6, h7, h8, h9, h10⟩
  · intro raw cc ambs pk lo wd hraw h
    obtain ⟨_, _, _, _, _, _, _, h8, _⟩ := loadWorkerConfig_fields h
    have hg : (loadGlobalSubmitterBody raw).maxTries = 3 := by
      simp [loadGlobalSubmitterBody, hraw, MAX_TRIES_DEFAULT]
    constructor
    · intro hc
      rw [hc] at h8
      simpa using h8
    · intro hc
      rw [hc, hg] at h8
      simpa using h8

/-- Witness for C1: concrete instantiation of the scenario conjunct — with
every global field absent and no chain override, the resolved `maxTries` is
the documented default `3`. -/
theorem c1_scalar_merge_resolution_witness : wdEx.maxTries = 3 := by
  have h := c1_scalar_merge_resolution.2.2 rawAllNone chainPlain [okAmb]
    "pk" "lo" wdEx rfl rfl
  exact h.2 rfl

/-- Claim C2: the resolved gasLimitBuffer maps each key to the chain-level
value when the key is present at chain level and to the global value
otherwise (keys only in the global map are kept, keys only in the chain map
are added, conflicts take the chain value); the merge is idempotent; and for
global `[default:0, erc20:5]` and chain `[erc20:10, nft:3]` the result is
exactly `[default:0, erc20:10, nft:3]`. -/
theorem c2_gasLimitBuffer_merge :
    (∀ g c : GasRecord, (recKeys g).Nodup → (recKeys c).Nodup →
      (∀ k : String,
        getKey? (getChainGasLimitBufferConfig g c) k =
          if hasKey c k then getKey? c k else getKey? g k) ∧
      getChainGasLimitBufferConfig (getChainGasLimitBufferConfig g c) c =
        getChainGasLimitBufferConfig g c) ∧
    getChainGasLimitBufferConfig [("default", 0), ("erc20", 5)]
      [("erc20", 10), ("nft", 3)] =
      [("default", 0), ("erc20", 10), ("nft", 3)] := by
  refine ⟨fun g c hg hc =>
    ⟨getKey?_getChainGasLimitBufferConfig g c hg hc,
      getChainGasLimitBufferConfig_idem g c hc⟩, by decide⟩

/-- Witness for C2: the merge characterization applied to concrete maps. -/
theorem c2_gasLimitBuffer_merge_witness :
    getKey? (getChainGasLimitBufferConfig [("a", 1)] [("b", 2)]) "b" = some 2 := by
  have h := (c2_gasLimitBuffer_merge.1 [("a", 1)] [("b", 2)]
    (by decide) (by decide)).1 "b"
  rw [h]
  decide

/-- Claim C4 counterexample: with the submitter section wholly absent, the
very first property access in `loadGlobalSubmitterConfig` raises a
`TypeError` rather than resolving to defaults, so the operation is not total
over a fully absent section. -/
theorem c4_absent_section_raises_cex :
    loadGlobalSubmitterConfig none =
      Except.error "TypeError: Cannot read properties of undefined" := rfl

/-- Claim C4 (amended): `loadGlobalSubmitterConfig` is total over every
input shape in which the submitter section object itself is present (any
subset of its fields may be absent): it never raises, and every missing
scalar resolves to its documented default (enabled=true, newOrdersDelay=0,
retryInterval=2000, processingInterval=100, maxTries=3,
maxPendingTransactions=1000, transactionTimeout=600000).  A fully absent
section raises a TypeError. -/
theorem c4_defaults_total_on_present_section :
    ∀ raw : RawSubmitterConfig,
      loadGlobalSubmitterConfig (some raw) = .ok (loadGlobalSubmitterBody raw) ∧
      (raw.enabled = none → (loadGlobalSubmitterBody raw).enabled = true) ∧
      (raw.newOrdersDelay = none →
        (loadGlobalSubmitterBody raw).newOrdersDelay = 0) ∧
      (raw.retryInterval = none →
        (loadGlobalSubmitterBody raw).retryInterval = 2000) ∧
      (raw.processingInterval = none →
        (loadGlobalSubmitterBody raw).processingInterval = 100) ∧
      (raw.maxTries = none → (loadGlobalSubmitterBody raw).maxTries = 3) ∧
      (raw.maxPendingTransactions = none →
        (loadGlobalSubmitterBody raw).maxPendingTransactions = 1000) ∧
      (raw.transactionTimeout = none →
        (loadGlobalSubmitterBody raw).transactionTimeout = 600000) := by
  intro raw
  refine ⟨rfl, ?_, ?_, ?_, ?_, ?_, ?_, ?_⟩ <;>
    intro h <;>
    simp [loadGlobalSubmitterBody, h, NEW_ORDERS_DELAY_DEFAULT,
      RETRY_INTERVAL_DEFAULT, PROCESSING_INTERVAL_DEFAULT, MAX_TRIES_DEFAULT,
      MAX_PENDING_TRANSACTIONS, TRANSACTION_TIMEOUT_DEFAULT]

/-- Witness for C4 (amended): the all-absent-fields section resolves without
error, to `maxTries = 3`. -/
theorem c4_defaults_total_on_present_section_witness :
    (loadGlobalSubmitterBody rawAllNone).maxTries = 3 :=
  (c4_defaults_total_on_present_section rawAllNone).2.2.2.2.2.1 rfl

/-- Claim C6: after global resolution the gasLimitBuffer always has the
`"default"` key (inserted with value 0 when missing); when `gasLimitBuffer`
is omitted entirely the resolved map is exactly `[("default", 0)]`; and the
key survives the per-chain merge into every resolved worker config. -/
theorem c6_default_key_invariant :
    ∀ raw : RawSubmitterConfig,
      hasKey (loadGlobalSubmitterBody raw).gasLimitBuffer "default" = true ∧
      (raw.gasLimitBuffer = none →
        (loadGlobalSubmitterBody raw).gasLimitBuffer = [("default", 0)]) ∧
      (∀ (cc : ChainConfig) (ambs : List AmbConfig) (pk lo : String)
        (wd : SubmitterWorkerData),
        loadWorkerConfig cc (loadGlobalSubmitterBody raw) ambs pk lo = .ok wd →
        hasKey wd.gasLimitBuffer "default" = true) := by
  intro raw
  have hbase :
      hasKey (loadGlobalSubmitterBody raw).gasLimitBuffer "default" = true := by
    show hasKey
      (if hasKey (raw.gasLimitBuffer.getD []) "default" then
        raw.gasLimitBuffer.getD []
      else setKey (raw.gasLimitBuffer.getD []) "default" 0) "default" = true
    cases h : hasKey (raw.gasLimitBuffer.getD []) "default" with
    | true => simp [h]
    | false => simp [h, hasKey_setKey]
  refine ⟨hbase, ?_, ?_⟩
  · intro h
    show (if hasKey (raw.gasLimitBuffer.getD []) "default" then
        raw.gasLimitBuffer.getD []
      else setKey (raw.gasLimitBuffer.getD []) "default" 0) = [("default", 0)]
    rw [h]
    rfl
  · intro cc ambs pk lo wd hld
    obtain ⟨_, _, _, _, _, _, _, _, _, _, hbuf, _⟩ := loadWorkerConfig_fields hld
    rw [hbuf, hasKey_getChainGasLimitBufferConfig, hbase]
    rfl

/-- Witness for C6: the `"default"` key is present in the concrete resolved
worker config. -/
theorem c6_default_key_invariant_witness :
    hasKey wdEx.gasLimitBuffer "default" = true :=
  (c6_default_key_invariant rawAllNone).2.2 chainPlain [okAmb] "pk" "lo" wdEx rfl

/-- Claim C5: when the resolved global config has `enabled = false`,
`onModuleInit` logs the informational disable message and returns early: the
worker map stays empty and no exception escapes. -/
theorem c5_disabled_early_return :
    ∀ (rawSub : Option RawSubmitterConfig) (g : GlobalSubmitterConfig)
      (chains : List ChainConfig) (ambs : List AmbConfig) (pk lo : String),
      loadGlobalSubmitterConfig rawSub = .ok g → g.enabled = false →
        onModuleInit rawSub chains ambs pk lo =
          ⟨[startingLog, disabledLog], [], none⟩ ∧
        disabledLog.level = LogLevel.info := by
  intro rawSub g chains ambs pk lo hg he
  refine ⟨?_, rfl⟩
  rw [onModuleInit, hg]
  show (if g.enabled = false then (⟨[startingLog, disabledLog], [], none⟩ : InitOutcome)
    else chains.foldl (initStep g ambs pk lo) ⟨[startingLog], [], none⟩) =
    ⟨[startingLog, disabledLog], [], none⟩
  rw [if_pos he]

/-- Witness for C5: a section with `enabled = some false` produces the
early-return outcome concretely. -/
theorem c5_disabled_early_return_witness :
    onModuleInit (some { enabled := some false }) [chainPlain] [okAmb]
      "pk" "lo" = ⟨[startingLog, disabledLog], [], none⟩ :=
  (c5_disabled_early_return (some { enabled := some false })
    (loadGlobalSubmitterBody { enabled := some false }) [chainPlain] [okAmb]
    "pk" "lo" rfl rfl).1

/-- Claim C3 counterexample: two configured chains, one adapter whose
address lookup throws for chain "1" only.  `onModuleInit` does not log and
skip: the exception escapes, and the healthy chain "2" — whose own
construction succeeds — gets no worker either.  The worker map is empty. -/
theorem c3_construction_failure_not_isolated_cex :
    (onModuleInit (some rawAllNone) [chain1, chain2] [failAmb] "pk" "lo").error =
      some "No incentives address" ∧
    (onModuleInit (some rawAllNone) [chain1, chain2] [failAmb] "pk" "lo").workers =
      [] ∧
    isOkExcept
      (loadWorkerConfig chain2 (loadGlobalSubmitterBody rawAllNone) [failAmb]
        "pk" "lo") = true :=
  ⟨rfl, rfl, rfl⟩

/-- Claim C3 (amended): a failure constructing one chain's worker config is
not caught — the exception escapes `onModuleInit`, so initialization stops at
the failing chain: chains earlier in the iteration keep their workers, and
neither the failing chain nor any later chain gets one. -/
theorem c3_construction_failure_aborts_init :
    ∀ (rawSub : Option RawSubmitterConfig) (g : GlobalSubmitterConfig)
      (ambs : List AmbConfig) (pk lo : String)
      (pre post : List ChainConfig) (bad : ChainConfig) (e : String),
      loadGlobalSubmitterConfig rawSub = .ok g → g.enabled = true →
      (∀ c ∈ pre, isOkExcept (loadWorkerConfig c g ambs pk lo) = true) →
      loadWorkerConfig bad g ambs pk lo = .error e →
      (onModuleInit rawSub (pre ++ bad :: post) ambs pk lo).error = some e ∧
      (onModuleInit rawSub (pre ++ bad :: post) ambs pk lo).workers =
        (onModuleInit rawSub pre ambs pk lo).workers := by
  intro rawSub g ambs pk lo pre post bad e hg he hpre hbad
  have hne : ¬(g.enabled = false) := by rw [he]; exact fun hc => by cases hc
  have hinit : ∀ chains : List ChainConfig,
      onModuleInit rawSub chains ambs pk lo =
        chains.foldl (initStep g ambs pk lo) ⟨[startingLog], [], none⟩ := by
    intro chains
    rw [onModuleInit, hg]
    show (if g.enabled = false then (⟨[startingLog, disabledLog], [], none⟩ : InitOutcome)
      else chains.foldl (initStep g ambs pk lo) ⟨[startingLog], [], none⟩) = _
    rw [if_neg hne]
  rw [hinit, hinit, List.foldl_append]
  have hA :
      ((pre.foldl (initStep g ambs pk lo) ⟨[startingLog], [], none⟩)).error =
        none :=
    foldl_initStep_ok_error g ambs pk lo pre _ rfl hpre
  set A := pre.foldl (initStep g ambs pk lo) ⟨[startingLog], [], none⟩ with hAdef
  rw [List.foldl_cons]
  have hstep : initStep g ambs pk lo A bad = { A with error := some e } := by
    rw [initStep, hA, hbad]
  rw [hstep, foldl_initStep_of_error g ambs pk lo post _ e rfl]
  exact ⟨rfl, rfl⟩

/-- Witness for C3 (amended): concretely, with healthy chain "2" first and
failing chain "1" second, the loop aborts with the lookup error. -/
theorem c3_construction_failure_aborts_init_witness :
    (onModuleInit (some rawAllNone) [chain2, chain1] [failAmb] "pk" "lo").error =
      some "No incentives address" := by
  have h := c3_construction_failure_aborts_init (some rawAllNone)
    (loadGlobalSubmitterBody rawAllNone) [failAmb] "pk" "lo" [chain2] []
    chain1 "No incentives address" rfl rfl (by decide) rfl
  exact h.1

/-- Claim C7 counterexample: two registered adapters sharing the name "amb"
produce a single-entry incentives map, not one entry per adapter, and the
first adapter's address is not in the map. -/
theorem c7_duplicate_name_cex :
    buildIncentivesAddresses [ambA, ambB] "1" = .ok [("amb", "0xB")] ∧
    [ambA, ambB].length = 2 ∧
    getKey? [("amb", "0xB")] "amb" ≠ some "0xA" :=
  ⟨rfl, rfl, by decide⟩

/-- Claim C7 (amended): for registered adapters with pairwise-distinct
names, the incentives map contains exactly one entry per adapter, keyed by
the adapter's name, valued by that adapter's lookup result for the chain id,
in registration order. -/
theorem c7_incentives_one_entry_per_adapter :
    ∀ (ambs : List AmbConfig) (chainId : String) (f : AmbConfig → String),
      (ambs.map AmbConfig.name).Nodup →
      (∀ a ∈ ambs, a.getIncentivesAddress chainId = .ok (f a)) →
      buildIncentivesAddresses ambs chainId =
        .ok (ambs.map fun a => (a.name, f a)) :=
  fun ambs chainId f hnd hok =>
    buildIncentivesAddresses_map_of_nodup ambs chainId f hnd hok

/-- Witness for C7 (amended): a single adapter yields the singleton map. -/
theorem c7_incentives_one_entry_per_adapter_witness :
    buildIncentivesAddresses [okAmb] "7" = .ok [("mock", "0xabc")] := by
  have h := c7_incentives_one_entry_per_adapter [okAmb] "7" (fun _ => "0xabc")
    (by decide) ?_
  · exact h
  · intro a ha
    rw [List.mem_singleton.mp ha]
    rfl

/-- Claim C10: when two registered adapters share a name, the incentives map
keeps only the later-registered adapter's address (last write wins), so the
map can be smaller than the adapter count; with pairwise-distinct names its
size equals the adapter count. -/
theorem c10_duplicate_names_last_write_wins :
    (∀ (a1 a2 : AmbConfig) (chainId v1 v2 : String),
      a1.name = a2.name →
      a1.getIncentivesAddress chainId = .ok v1 →
      a2.getIncentivesAddress chainId = .ok v2 →
      buildIncentivesAddresses [a1, a2] chainId = .ok [(a1.name, v2)] ∧
      ([(a1.name, v2)] : List (String × String)).length < [a1, a2].length) ∧
    (∀ (ambs : List AmbConfig) (chainId : String) (m : List (String × String)),
      buildIncentivesAddresses ambs chainId = .ok m →
      m.length ≤ ambs.length ∧
      ((ambs.map AmbConfig.name).Nodup → m.length = ambs.length)) := by
  constructor
  · intro a1 a2 chainId v1 v2 hn h1 h2
    constructor
    · rw [buildIncentivesAddresses, buildIncentivesGo, h1]
      show buildIncentivesGo chainId (setKey [] a1.name v1) [a2] =
        Except.ok [(a1.name, v2)]
      rw [buildIncentivesGo, h2]
      show Except.ok (setKey (setKey [] a1.name v1) a2.name v2) =
        Except.ok [(a1.name, v2)]
      rw [hn]
      simp [setKey, hasKey, overwriteKey]
    · simp
  · intro ambs chainId m h
    constructor
    · have := buildIncentivesGo_length chainId ambs [] m h
      simpa using this
    · intro hnd
      have hok : ∀ a ∈ ambs,
          a.getIncentivesAddress chainId = .ok (ambAddressOr chainId a) := by
        intro a ha
        obtain ⟨v, hv⟩ := buildIncentivesGo_all_ok chainId ambs [] m h a ha
        rw [hv, ambAddressOr, hv]
      have hmap := buildIncentivesAddresses_map_of_nodup ambs chainId
        (ambAddressOr chainId) hnd hok
      rw [h] at hmap
      injection hmap with heq
      rw [heq, List.length_map]

/-- Witness for C10: two same-named adapters concretely collapse to the
later one's entry. -/
theorem c10_duplicate_names_last_write_wins_witness :
    buildIncentivesAddresses [ambB, ambA] "1" = .ok [("amb", "0xA")] :=
  (c10_duplicate_names_last_write_wins.1 ambB ambA "1" "0xB" "0xA" rfl rfl
    rfl).1

/-- Claim C8: on a started worker's transition to `Errored` or `Exited`, the
registered observer emits exactly one log event, at fatal severity, whose
message references the chain identifier (and, for exit, the exit code); the
supervisor's worker map is untouched — no restart, no replacement, and no
other chain's worker is affected. -/
theorem c8_worker_fault_single_fatal_log :
    ∀ (chainId : String) (workers : List (String × SubmitterWorkerData))
      (ev : WorkerEvent),
      (handleWorkerEvent chainId workers ev).1 = workers ∧
      (handleWorkerEvent chainId workers ev).2.length = 1 ∧
      ∀ l ∈ (handleWorkerEvent chainId workers ev).2,
        l.level = LogLevel.fatal ∧
        (∃ p q, l.message = p ++ (chainId ++ q)) ∧
        (∀ code : Int, ev = WorkerEvent.exitEvent code →
          ∃ p q, l.message = p ++ (toString code ++ q)) := by
  intro chainId workers ev
  cases ev with
  | errorEvent err =>
    refine ⟨rfl, rfl, ?_⟩
    intro l hl
    rw [List.mem_singleton.mp hl]
    refine ⟨rfl, ⟨"Error on submitter worker (chain ", ").", rfl⟩, ?_⟩
    intro code hc
    exact WorkerEvent.noConfusion hc
  | exitEvent code =>
    refine ⟨rfl, rfl, ?_⟩
    intro l hl
    rw [List.mem_singleton.mp hl]
    refine ⟨rfl, ?_, ?_⟩
    · refine ⟨"Submitter worker exited with code " ++
        (toString code ++ " (chain "), ").", ?_⟩
      show "Submitter worker exited with code " ++
          (toString code ++ (" (chain " ++ (chainId ++ ")."))) =
        ("Submitter worker exited with code " ++ (toString code ++ " (chain "))
          ++ (chainId ++ ").")
      rw [stringAppendAssoc, stringAppendAssoc]
    · intro c hc
      injection hc with hcode
      exact ⟨"Submitter worker exited with code ",
        " (chain " ++ (chainId ++ ")."), by rw [hcode]; rfl⟩

/-- Witness for C8: a concrete exit event yields its single fatal log and
leaves the (empty) worker map unchanged. -/
theorem c8_worker_fault_single_fatal_log_witness :
    (handleWorkerEvent "9" [] (WorkerEvent.exitEvent 1)).2.length = 1 ∧
    ∃ p q,
      (workerExitLog "9" 1).message = p ++ (("9" : String) ++ q) := by
  have h := c8_worker_fault_single_fatal_log "9" [] (WorkerEvent.exitEvent 1)
  exact ⟨h.2.1, (h.2.2 (workerExitLog "9" 1) (List.mem_singleton.mpr rfl)).2.1⟩

/-- Claim C9: when the raw submitter section supplies a gasLimitBuffer
object lacking the `"default"` key, resolution writes `default = 0` through
the caller-owned reference: the resolved config holds the very same address,
the heap cell now carries the extra key, and the caller's object is no
longer what it was before resolution. -/
theorem c9_gasLimitBuffer_mutated_in_place :
    ∀ (store : GasStore) (a : Nat),
      a < store.length →
      hasKey (store.getD a []) "default" = false →
      (loadGlobalGasLimitBufferRef store (some a)).2 = a ∧
      (loadGlobalGasLimitBufferRef store (some a)).1.getD a [] =
        setKey (store.getD a []) "default" 0 ∧
      (loadGlobalGasLimitBufferRef store (some a)).1.getD a [] ≠
        store.getD a [] := by
  intro store a ha hk
  have h1 : loadGlobalGasLimitBufferRef store (some a) =
      (store.set a (setKey (store.getD a []) "default" 0), a) := by
    show (if hasKey (store.getD a []) "default" then (store, a)
      else (store.set a (setKey (store.getD a []) "default" 0), a)) =
      (store.set a (setKey (store.getD a []) "default" 0), a)
    rw [if_neg (by rw [hk]; exact Bool.false_ne_true)]
  rw [h1]
  have hget : (store.set a (setKey (store.getD a []) "default" 0)).getD a [] =
      setKey (store.getD a []) "default" 0 := by
    rw [List.getD_eq_getElem?_getD, List.getElem?_set_self (by simpa using ha)]
    rfl
  refine ⟨rfl, hget, ?_⟩
  rw [hget]
  intro heq
  have h2 : hasKey (setKey (store.getD a []) "default" 0) "default" = true := by
    rw [hasKey_setKey, hk]
    rfl
  rw [heq, hk] at h2
  cases h2

/-- Witness for C9: a concrete store with one default-less buffer object is
mutated in place. -/
theorem c9_gasLimitBuffer_mutated_in_place_witness :
    (loadGlobalGasLimitBufferRef [[("erc20", 5)]] (some 0)).1.getD 0 [] =
      [("erc20", 5), ("default", 0)] := by
  have h := c9_gasLimitBuffer_mutated_in_place [[("erc20", 5)]] 0
    (by decide) (by decide)
  rw [h.2.1]
  decide
